import Mathlib

/-!
Shallow embedding of `lib/SILOptimizer/UtilityPasses/BugReducerTester.cpp`:
a SIL utility pass that, given a target function name and a failure kind,
finds the first `ApplyInst` whose callee is a `FunctionRefInst` resolving to
the target and injects exactly one failure (optimizer crash, runtime
miscompile, or runtime crash via a synthesized trap stub) per run.

The SIL structures the pass touches (modules, functions, basic blocks,
instructions, SSA values) are modelled ; the pass body `BugReducerTester::run`
and the helper `getRuntimeCrasherFunction` are translated statement by
statement as state-passing functions.
-/

namespace BugReducer

/-- SIL types as far as the pass observes them: the empty tuple type
(result type of the trap stub, `M.Types.getEmptyTupleType()`) and any
other type, identified by a name. -/
inductive Ty
  | emptyTuple
  | named (s : String)
deriving DecidableEq

/-- An SSA value as used by instruction operands: either the result of the
instruction with the given id, or a `SILUndef` of a type
(`SILUndef::get(Apply->getType(), M)`). -/
inductive Value
  | result (id : Nat)
  | undef (ty : Ty)
deriving DecidableEq

/-- The callee operand of an `ApplyInst`: either a direct
`FunctionRefInst` naming a function (the case `dyn_cast<FunctionRefInst>`
succeeds on) or any other value (indirect callee). -/
inductive Callee
  | functionRef (fname : String)
  | indirect (v : Value)
deriving DecidableEq

/-- The instruction kinds the pass observes or creates: `ApplyInst` (with
result id, callee, argument list and result type), `FunctionRefInst`,
`BuiltinTrap`, `Unreachable`, and any other instruction carrying a list of
value operands. -/
inductive Instr
  | apply (id : Nat) (callee : Callee) (args : List Value) (resTy : Ty)
  | functionRef (id : Nat) (fname : String)
  | builtinTrap
  | unreachable
  | other (id : Nat) (ops : List Value)
deriving DecidableEq

/-- A `SILFunction`: a name and an ordered list of basic blocks, each an
ordered list of instructions. A function with no blocks is a declaration. -/
structure SILFunction where
  name : String
  blocks : List (List Instr)
deriving DecidableEq

/-- `SILFunction::isDefinition()`: the function has at least one block. -/
def SILFunction.isDefinition (f : SILFunction) : Bool :=
  !f.blocks.isEmpty

/-- A `SILModule`: the ordered list of its functions. -/
structure Module where
  functions : List SILFunction
deriving DecidableEq

/-- Look a function up by name in a module (first match). -/
def Module.findFunction? (m : Module) (n : String) : Option SILFunction :=
  m.functions.find? (fun f => f.name = n)

/-- Replace every function of the given name in the module. -/
def Module.setFunction (m : Module) (n : String) (f : SILFunction) : Module :=
  ⟨m.functions.map (fun g => if g.name = n then f else g)⟩

/-- Replace the function at a given index in the module. -/
def Module.setAt (m : Module) (i : Nat) (f : SILFunction) : Module :=
  ⟨m.functions.set i f⟩

/-- `SILModule::getOrCreateSharedFunction` as the pass uses it: if a
function of that name exists, return it; otherwise create an empty
declaration of that name and append it to the module. -/
def getOrCreateSharedFunction (m : Module) (n : String) :
    Module × SILFunction :=
  match m.findFunction? n with
  | some f => (m, f)
  | none =>
    let f : SILFunction := ⟨n, []⟩
    (⟨m.functions ++ [f]⟩, f)

/-- The fixed name of the trap stub,
`BugReducerTester::RuntimeCrasherFunctionName`. -/
def RuntimeCrasherFunctionName : String := "bug_reducer_runtime_crasher_func"

/-- `BugReducerTester::getRuntimeCrasherFunction`: get-or-create the stub
by its fixed name; if it is already a definition return it unchanged,
otherwise give it a single basic block `[builtin trap, unreachable]`. -/
def getRuntimeCrasherFunction (m : Module) : Module × SILFunction :=
  let p := getOrCreateSharedFunction m RuntimeCrasherFunctionName
  if p.2.isDefinition then p
  else
    let f : SILFunction :=
      ⟨p.2.name, [[Instr.builtinTrap, Instr.unreachable]]⟩
    (p.1.setFunction p.2.name f, f)

/-- The match test of the scan loop: the instruction is an `ApplyInst`
whose callee is a `FunctionRefInst` whose referenced function's name
equals the target. -/
def isTargetApply (t : String) : Instr → Bool
  | .apply _ (.functionRef n) _ _ => n = t
  | _ => false

/-- Scan a basic block in program order for the first matching apply,
returning its index and the instruction. -/
def findInBlock (t : String) : List Instr → Option (Nat × Instr)
  | [] => none
  | i :: rest =>
    if isTargetApply t i then some (0, i)
    else (findInBlock t rest).map (fun x => (x.1 + 1, x.2))

/-- Scan the blocks of a function in order, and each block in program
order, for the first matching apply; return block index, instruction
index and the instruction. -/
def findTargetApply (t : String) :
    List (List Instr) → Option (Nat × Nat × Instr)
  | [] => none
  | b :: bs =>
    match findInBlock t b with
    | some x => some (0, x.1, x.2)
    | none => (findTargetApply t bs).map (fun x => (x.1 + 1, x.2.1, x.2.2))

/-- Replace a use of the result of instruction `old` by the value `v`
(the effect of `replaceAllUsesWith` on one operand). -/
def substVal (old : Nat) (v : Value) : Value → Value
  | .result i => if i = old then v else .result i
  | w => w

/-- Substitute in the callee operand: only an indirect callee is a value
use; a `FunctionRefInst` callee has no value operand. -/
def Callee.subst (old : Nat) (v : Value) : Callee → Callee
  | .indirect w => .indirect (substVal old v w)
  | c => c

/-- `replaceAllUsesWith` restricted to one instruction: replace every
operand that reads the result of `old` by `v`. -/
def Instr.rauw (old : Nat) (v : Value) : Instr → Instr
  | .apply id c args ty => .apply id (c.subst old v) (args.map (substVal old v)) ty
  | .other id ops => .other id (ops.map (substVal old v))
  | i => i

/-- `replaceAllUsesWith` over all blocks of a function. -/
def rauwBlocks (old : Nat) (v : Value) (bs : List (List Instr)) :
    List (List Instr) :=
  bs.map (fun b => b.map (Instr.rauw old v))

/-- Remove the instruction at index `i` of a block
(`eraseFromParent`). -/
def removeAt (b : List Instr) (i : Nat) : List Instr :=
  b.take i ++ b.drop (i + 1)

/-- Insert instructions before index `i` of a block (a `SILBuilder`
positioned at the instruction at index `i`). -/
def insertAt (b : List Instr) (i : Nat) (is : List Instr) : List Instr :=
  b.take i ++ is ++ b.drop i

/-- The id of an apply instruction (the matched instruction is always an
apply, so the default is never reached). -/
def Instr.applyId : Instr → Nat
  | .apply id _ _ _ => id
  | _ => 0

/-- The result type of an apply instruction. -/
def Instr.applyResTy : Instr → Ty
  | .apply _ _ _ ty => ty
  | _ => .emptyTuple

/-- The id defined by an instruction, for picking fresh ids. -/
def Instr.defId : Instr → Nat
  | .apply id _ _ _ => id
  | .functionRef id _ => id
  | .other id _ => id
  | _ => 0

/-- An id strictly larger than every id defined in the blocks. -/
def freshId (bs : List (List Instr)) : Nat :=
  (bs.map (fun b => (b.map Instr.defId).foldr max 0)).foldr max 0 + 1

/-- The failure kind option `bug-reducer-tester-failure-kind`. -/
inductive FailureKind
  | optimizerCrasher
  | runtimeMiscompile
  | runtimeCrasher
  | none
deriving DecidableEq

/-- The pass configuration: the two command-line options
`bug-reducer-tester-target-func` and `bug-reducer-tester-failure-kind`,
immutable over a run. -/
structure Config where
  functionTarget : String
  targetFailureKind : FailureKind
deriving DecidableEq

/-- The result of one invocation of `BugReducerTester::run`: a normal
return carrying the updated `CausedError` flag and module, or an abort of
the process (`llvm_unreachable` / a failed `assert`), carrying the state
of the module at the moment of the abort. -/
inductive RunResult
  | ok (causedError : Bool) (m : Module)
  | abort (m : Module)
deriving DecidableEq

/-- The `RuntimeMiscompile` mutation on the current function:
`replaceAllUsesWith(SILUndef)` then `eraseFromParent` of the apply at
position `(bi, ii)`. -/
def injectMiscompile (f : SILFunction) (bi ii aid : Nat) (ty : Ty) :
    SILFunction :=
  let bs := rauwBlocks aid (Value.undef ty) f.blocks
  ⟨f.name, bs.set bi (removeAt (bs.getD bi []) ii)⟩

/-- The `RuntimeCrasher` mutation on the current function: build a
`FunctionRefInst` to the stub and an `ApplyInst` of it with no arguments
immediately before the matched apply, then `replaceAllUsesWith(SILUndef)`
and erase the matched apply (which now sits two places later). -/
def injectCrasher (f : SILFunction) (bi ii aid : Nat) (ty : Ty)
    (stub : String) : SILFunction :=
  let fid := freshId f.blocks
  let newInstrs : List Instr :=
    [Instr.functionRef fid stub,
     Instr.apply (fid + 1) (Callee.functionRef stub) [] Ty.emptyTuple]
  let bs1 := f.blocks.set bi (insertAt (f.blocks.getD bi []) ii newInstrs)
  let bs2 := rauwBlocks aid (Value.undef ty) bs1
  ⟨f.name, bs2.set bi (removeAt (bs2.getD bi []) (ii + 2))⟩

/-- `BugReducerTester::run`, translated statement by statement.
`causedError` is the pass field `CausedError`, `fidx` the index of
`getFunction()` in the module. The `assert(TargetFailureKind !=
FailureKind::None)` and `llvm_unreachable("Found the target!")` both
terminate the process and are modelled as `RunResult.abort`. -/
def runPass (cfg : Config) (causedError : Bool) (m : Module)
    (fidx : Nat) : RunResult :=
  if cfg.functionTarget = "" ∨ causedError then .ok causedError m
  else if cfg.targetFailureKind = .none then .abort m
  else
    match m.functions[fidx]? with
    | Option.none => .ok causedError m
    | some f =>
      match findTargetApply cfg.functionTarget f.blocks with
      | Option.none => .ok causedError m
      | some (bi, ii, inst) =>
        if cfg.targetFailureKind = .optimizerCrasher then .abort m
        else if cfg.targetFailureKind = .runtimeMiscompile then
          .ok true
            (m.setAt fidx
              (injectMiscompile f bi ii inst.applyId inst.applyResTy))
        else
          let p := getRuntimeCrasherFunction m
          .ok true
            (p.1.setAt fidx
              (injectCrasher f bi ii inst.applyId inst.applyResTy
                p.2.name))

/-- A whole run: the external scheduler invokes the pass once per
function, in the given index order, threading `CausedError` and the
module; an abort ends the run. -/
def runSchedule (cfg : Config) :
    List Nat → Bool → Module → RunResult
  | [], ce, m => .ok ce m
  | i :: rest, ce, m =>
    match runPass cfg ce m i with
    | .ok ce2 m2 => runSchedule cfg rest ce2 m2
    | .abort m2 => .abort m2

/-- The value operands of a callee: only an indirect callee reads a
value. -/
def Callee.operands : Callee → List Value
  | .indirect v => [v]
  | _ => []

/-- The value operands of an instruction: the uses it holds of SSA
values. -/
def Instr.operands : Instr → List Value
  | .apply _ c args _ => c.operands ++ args
  | .other _ ops => ops
  | _ => []

/-- Whether some instruction in the blocks uses the result of the
instruction with id `a`. -/
def usesResult (bs : List (List Instr)) (a : Nat) : Bool :=
  bs.any (fun b => b.any
    (fun i => i.operands.any (fun v => decide (v = Value.result a))))

/-- The number of instructions across the blocks matching the target
(direct applies of the named function). -/
def matchCount (t : String) : List (List Instr) → Nat
  | [] => 0
  | b :: bs => b.countP (fun i => isTargetApply t i) + matchCount t bs

/-- Whether the function the scheduler would hand the pass at index `i`
contains a matching call. -/
def functionMatches (t : String) (m : Module) (i : Nat) : Bool :=
  match m.functions[i]? with
  | some f => (findTargetApply t f.blocks).isSome
  | Option.none => false

/-- The trap stub exactly as the pass constructs it: the fixed name and a
single block holding a builtin trap and an unreachable terminator. -/
def trapStub : SILFunction :=
  ⟨RuntimeCrasherFunctionName, [[Instr.builtinTrap, Instr.unreachable]]⟩

/-! ### Concrete fixtures used by witness theorems -/

/-- A direct apply of the function named `target`. -/
def exTargetApply : Instr :=
  Instr.apply 1 (Callee.functionRef "target") [] (Ty.named "T")

/-- An instruction using the result of `exTargetApply`. -/
def exUser : Instr := Instr.other 2 [Value.result 1]

/-- A function whose single block applies the target then uses the
result. -/
def exFunMain : SILFunction := ⟨"main", [[exTargetApply, exUser]]⟩

/-- A function with no matching call. -/
def exFunOther : SILFunction := ⟨"helper", [[Instr.other 3 []]]⟩

/-- A second function with a matching call. -/
def exFunSecond : SILFunction :=
  ⟨"second", [[Instr.apply 4 (Callee.functionRef "target") []
    (Ty.named "T")]]⟩

/-- A module with a non-matching function, then two matching ones. -/
def exModule : Module := ⟨[exFunOther, exFunMain, exFunSecond]⟩

/-- A pre-existing full definition carrying the stub's reserved name but
an arbitrary body. -/
def exWeirdStub : SILFunction :=
  ⟨RuntimeCrasherFunctionName, [[Instr.other 9 []]]⟩

/-- A module that already defines a function with the stub's name. -/
def exModuleStub : Module := ⟨[exWeirdStub, exFunMain]⟩

/-- The miscompile configuration. -/
def cfgMis : Config := ⟨"target", FailureKind.runtimeMiscompile⟩

/-- The runtime-crasher configuration. -/
def cfgCrash : Config := ⟨"target", FailureKind.runtimeCrasher⟩

/-- The optimizer-crasher configuration. -/
def cfgAbort : Config := ⟨"target", FailureKind.optimizerCrasher⟩

/-- The disabled-failure-kind configuration with a set target. -/
def cfgDisabled : Config := ⟨"target", FailureKind.none⟩

/-! ### Matcher lemmas -/

theorem findInBlock_none {t : String} : ∀ {b : List Instr},
    findInBlock t b = Option.none →
    ∀ i ∈ b, isTargetApply t i = false := by
  intro b
  induction b with
  | nil => intro _ i hi; simp at hi
  | cons x rest ih =>
    intro h i hi
    by_cases hx : isTargetApply t x
    · simp [findInBlock, hx] at h
    · simp only [findInBlock, hx, if_neg, Bool.false_eq_true,
        ite_false, Option.map_eq_none'] at h
      rcases List.mem_cons.mp hi with hEq | hMem
      · simpa [hEq] using hx
      · exact ih h i hMem

theorem findInBlock_some {t : String} : ∀ {b : List Instr} {j : Nat}
    {i : Instr}, findInBlock t b = some (j, i) →
    b[j]? = some i ∧ isTargetApply t i = true ∧
      ∀ k, k < j → ∀ i2, b[k]? = some i2 → isTargetApply t i2 = false := by
  intro b
  induction b with
  | nil => intro j i h; simp [findInBlock] at h
  | cons x rest ih =>
    intro j i h
    by_cases hx : isTargetApply t x
    · simp only [findInBlock, hx, ite_true, Option.some.injEq,
        Prod.mk.injEq] at h
      obtain ⟨hj, hi⟩ := h
      subst hj; subst hi
      exact ⟨by simp, hx, fun k hk => by omega⟩
    · simp only [findInBlock, hx, Bool.false_eq_true, ite_false,
        Option.map_eq_some'] at h
      obtain ⟨⟨j0, i0⟩, hfind, heq⟩ := h
      simp only [Prod.mk.injEq] at heq
      obtain ⟨hj, hi⟩ := heq
      subst hi
      obtain ⟨hget, hmatch, hfirst⟩ := ih hfind
      refine ⟨by simpa [← hj] using hget, hmatch, ?_⟩
      intro k hk i2 hget2
      cases k with
      | zero =>
        simp only [List.getElem?_cons_zero, Option.some.injEq] at hget2
        subst hget2
        simpa using hx
      | succ k2 =>
        simp only [List.getElem?_cons_succ] at hget2
        exact hfirst k2 (by omega) i2 hget2

theorem findTargetApply_none {t : String} : ∀ {bs : List (List Instr)},
    findTargetApply t bs = Option.none →
    ∀ b ∈ bs, ∀ i ∈ b, isTargetApply t i = false := by
  intro bs
  induction bs with
  | nil => intro _ b hb; simp at hb
  | cons b0 rest ih =>
    intro h b hb i hi
    match hfb : findInBlock t b0 with
    | some x => simp [findTargetApply, hfb] at h
    | Option.none =>
      simp only [findTargetApply, hfb, Option.map_eq_none'] at h
      rcases List.mem_cons.mp hb with hEq | hMem
      · exact findInBlock_none hfb i (hEq ▸ hi)
      · exact ih h b hMem i hi

theorem findTargetApply_some {t : String} : ∀ {bs : List (List Instr)}
    {bi ii : Nat} {i : Instr},
    findTargetApply t bs = some (bi, ii, i) →
    ∃ b, bs[bi]? = some b ∧ b[ii]? = some i ∧ isTargetApply t i = true ∧
      (∀ bj, bj < bi → ∀ b2, bs[bj]? = some b2 →
        ∀ i2 ∈ b2, isTargetApply t i2 = false) ∧
      (∀ k, k < ii → ∀ i2, b[k]? = some i2 →
        isTargetApply t i2 = false) := by
  intro bs
  induction bs with
  | nil => intro bi ii i h; simp [findTargetApply] at h
  | cons b0 rest ih =>
    intro bi ii i h
    match hfb : findInBlock t b0 with
    | some x =>
      simp only [findTargetApply, hfb, Option.some.injEq,
        Prod.mk.injEq] at h
      obtain ⟨hbi, hii, hi⟩ := h
      subst hbi
      obtain ⟨hget, hmatch, hfirst⟩ := findInBlock_some hfb
      refine ⟨b0, by simp, ?_, ?_, ?_, ?_⟩
      · rw [← hii, ← hi]; exact hget
      · rw [← hi]; exact hmatch
      · intro bj hbj; omega
      · intro k hk i2 hget2
        exact hfirst k (by omega) i2 hget2
    | Option.none =>
      simp only [findTargetApply, hfb, Option.map_eq_some'] at h
      obtain ⟨⟨bj0, ij0, i0⟩, hfind, heq⟩ := h
      simp only [Prod.mk.injEq] at heq
      obtain ⟨hbi, hii, hi⟩ := heq
      subst hii; subst hi
      obtain ⟨b, hb, hget, hmatch, hblocks, hinstr⟩ := ih hfind
      refine ⟨b, by simpa [← hbi] using hb, hget, hmatch, ?_, hinstr⟩
      intro bj hbj b2 hget2 i2 hi2
      cases bj with
      | zero =>
        simp only [List.getElem?_cons_zero, Option.some.injEq] at hget2
        subst hget2
        exact findInBlock_none hfb i2 hi2
      | succ bj2 =>
        simp only [List.getElem?_cons_succ] at hget2
        exact hblocks bj2 (by omega) b2 hget2 i2 hi2

/-! ### Basic equations for one invocation of the pass -/

theorem runPass_emptyTarget (cfg : Config) (ce : Bool) (m : Module)
    (i : Nat) (h : cfg.functionTarget = "") :
    runPass cfg ce m i = .ok ce m := by
  simp [runPass, h]

theorem runPass_flagSet (cfg : Config) (m : Module) (i : Nat) :
    runPass cfg true m i = .ok true m := by
  simp [runPass]

theorem runPass_noneKind (cfg : Config) (m : Module) (i : Nat)
    (ht : ¬ cfg.functionTarget = "")
    (hk : cfg.targetFailureKind = FailureKind.none) :
    runPass cfg false m i = .abort m := by
  simp [runPass, ht, hk]

theorem runPass_noMatch (cfg : Config) (m : Module) (i : Nat)
    (hk : ¬ cfg.targetFailureKind = FailureKind.none)
    (h : ∀ f, m.functions[i]? = some f →
      findTargetApply cfg.functionTarget f.blocks = Option.none) :
    runPass cfg false m i = .ok false m := by
  by_cases ht : cfg.functionTarget = ""
  · exact runPass_emptyTarget cfg false m i ht
  · unfold runPass
    simp only [ht, false_or, if_false, hk, ite_false]
    cases hf : m.functions[i]? with
    | none => rfl
    | some f => simp [h f hf]

theorem runPass_optCrasher (cfg : Config) (m : Module) (fidx : Nat)
    (f : SILFunction) (bi ii : Nat) (inst : Instr)
    (ht : ¬ cfg.functionTarget = "")
    (hk : cfg.targetFailureKind = FailureKind.optimizerCrasher)
    (hf : m.functions[fidx]? = some f)
    (hfind : findTargetApply cfg.functionTarget f.blocks =
      some (bi, ii, inst)) :
    runPass cfg false m fidx = .abort m := by
  unfold runPass
  simp [ht, hk, hf, hfind]

theorem runPass_miscompile (cfg : Config) (m : Module) (fidx : Nat)
    (f : SILFunction) (bi ii : Nat) (inst : Instr)
    (ht : ¬ cfg.functionTarget = "")
    (hk : cfg.targetFailureKind = FailureKind.runtimeMiscompile)
    (hf : m.functions[fidx]? = some f)
    (hfind : findTargetApply cfg.functionTarget f.blocks =
      some (bi, ii, inst)) :
    runPass cfg false m fidx =
      .ok true (m.setAt fidx
        (injectMiscompile f bi ii inst.applyId inst.applyResTy)) := by
  unfold runPass
  simp [ht, hk, hf, hfind]

theorem runPass_crasher (cfg : Config) (m : Module) (fidx : Nat)
    (f : SILFunction) (bi ii : Nat) (inst : Instr)
    (ht : ¬ cfg.functionTarget = "")
    (hk : cfg.targetFailureKind = FailureKind.runtimeCrasher)
    (hf : m.functions[fidx]? = some f)
    (hfind : findTargetApply cfg.functionTarget f.blocks =
      some (bi, ii, inst)) :
    runPass cfg false m fidx =
      .ok true ((getRuntimeCrasherFunction m).1.setAt fidx
        (injectCrasher f bi ii inst.applyId inst.applyResTy
          (getRuntimeCrasherFunction m).2.name)) := by
  unfold runPass
  simp [ht, hk, hf, hfind]

theorem runSchedule_flagSet (cfg : Config) : ∀ (idxs : List Nat)
    (m : Module), runSchedule cfg idxs true m = .ok true m := by
  intro idxs
  induction idxs with
  | nil => intro m; rfl
  | cons i rest ih =>
    intro m
    simp [runSchedule, runPass_flagSet, ih]

/-! ### RAUW and block-surgery lemmas -/

theorem eq_take_cons_drop {α : Type} (b : List α) (ii : Nat) (x : α)
    (h : b[ii]? = some x) :
    b = b.take ii ++ x :: b.drop (ii + 1) := by
  have hlt : ii < b.length := (List.getElem?_eq_some.mp h).1
  have hx : b[ii] = x := by
    have h2 := List.getElem?_eq_getElem hlt
    rw [h] at h2
    exact (Option.some.injEq _ _ ▸ h2.symm)
  conv_lhs => rw [← List.take_append_drop ii b]
  rw [List.drop_eq_getElem_cons hlt, hx]

theorem removeAt_append (P Q : List Instr) (x : Instr) :
    removeAt (P ++ x :: Q) P.length = P ++ Q := by
  have h1 : P ++ x :: Q = (P ++ [x]) ++ Q := by simp
  have h2 : P.length + 1 = (P ++ [x]).length := by simp
  unfold removeAt
  rw [h2, h1, List.drop_left]
  have h3 : ((P ++ [x]) ++ Q).take P.length = (P ++ x :: Q).take P.length := by
    rw [← h1]
  rw [h3]
  have h4 : (P ++ x :: Q).take P.length = P := List.take_left P (x :: Q)
  rw [h4]

theorem length_removeAt (b : List Instr) (ii : Nat) (h : ii < b.length) :
    (removeAt b ii).length + 1 = b.length := by
  simp only [removeAt, List.length_append, List.length_take,
    List.length_drop]
  omega

theorem isTargetApply_rauw (t : String) (a : Nat) (v : Value)
    (i : Instr) :
    isTargetApply t (Instr.rauw a v i) = isTargetApply t i := by
  cases i with
  | apply id c args ty => cases c <;> rfl
  | functionRef id n => rfl
  | builtinTrap => rfl
  | unreachable => rfl
  | other id ops => rfl

theorem operands_rauw (a : Nat) (v : Value) (i : Instr) :
    (Instr.rauw a v i).operands = i.operands.map (substVal a v) := by
  cases i with
  | apply id c args ty =>
    cases c <;>
      simp [Instr.rauw, Callee.subst, Instr.operands, Callee.operands]
  | functionRef id n => rfl
  | builtinTrap => rfl
  | unreachable => rfl
  | other id ops => rfl

theorem substVal_undef_ne (a : Nat) (ty : Ty) (v : Value) :
    ¬ substVal a (Value.undef ty) v = Value.result a := by
  cases v with
  | result i => by_cases h : i = a <;> simp [substVal, h]
  | undef t2 => simp [substVal]

theorem usesResult_false (bs : List (List Instr)) (a : Nat) (ty : Ty)
    (h : ∀ b ∈ bs, ∀ i ∈ b, ∃ i0, i = Instr.rauw a (Value.undef ty) i0) :
    usesResult bs a = false := by
  simp only [usesResult, List.any_eq_false, List.any_eq_true,
    decide_eq_true_eq]
  push_neg
  intro b hb i hi v hv
  obtain ⟨i0, rfl⟩ := h b hb i hi
  rw [operands_rauw] at hv
  obtain ⟨v0, hv0, rfl⟩ := List.mem_map.mp hv
  exact substVal_undef_ne a ty v0

theorem countP_rauw (t : String) (a : Nat) (v : Value) (b : List Instr) :
    (b.map (Instr.rauw a v)).countP (fun i => isTargetApply t i) =
      b.countP (fun i => isTargetApply t i) := by
  rw [List.countP_map]
  exact List.countP_congr
    (fun i _ => by simp [Function.comp, isTargetApply_rauw])

theorem matchCount_rauwBlocks (t : String) (a : Nat) (v : Value) :
    ∀ bs : List (List Instr),
    matchCount t (rauwBlocks a v bs) = matchCount t bs := by
  intro bs
  induction bs with
  | nil => rfl
  | cons b rest ih =>
    simp only [rauwBlocks, List.map_cons, matchCount] at *
    rw [countP_rauw, ih]

theorem matchCount_set (t : String) : ∀ (bs : List (List Instr))
    (bi : Nat) (b b2 : List Instr), bs[bi]? = some b →
    matchCount t (bs.set bi b2) + b.countP (fun i => isTargetApply t i) =
      matchCount t bs + b2.countP (fun i => isTargetApply t i) := by
  intro bs
  induction bs with
  | nil => intro bi b b2 h; simp at h
  | cons b0 rest ih =>
    intro bi b b2 h
    cases bi with
    | zero =>
      simp only [List.getElem?_cons_zero, Option.some.injEq] at h
      subst h
      simp only [List.set_cons_zero, matchCount]
      omega
    | succ bi2 =>
      simp only [List.getElem?_cons_succ] at h
      simp only [List.set_cons_succ, matchCount]
      have h2 := ih bi2 b b2 h
      omega

theorem countP_removeAt (p : Instr → Bool) (b : List Instr) (ii : Nat)
    (x : Instr) (h : b[ii]? = some x) :
    (removeAt b ii).countP p + (if p x then 1 else 0) = b.countP p := by
  have hd := eq_take_cons_drop b ii x h
  conv_rhs => rw [hd]
  simp only [removeAt, List.countP_append, List.countP_cons]
  by_cases hx : p x <;> simp only [hx, if_true, ite_true, if_false,
    Bool.false_eq_true, ite_false] <;> omega

theorem countP_insertAt (p : Instr → Bool) (b : List Instr) (ii : Nat)
    (is : List Instr) :
    (insertAt b ii is).countP p = b.countP p + is.countP p := by
  conv_rhs => rw [← List.take_append_drop ii b]
  simp only [insertAt, List.countP_append]
  omega

theorem rauwBlocks_getElem? (a : Nat) (v : Value)
    (bs : List (List Instr)) (bi : Nat) :
    (rauwBlocks a v bs)[bi]? =
      (bs[bi]?).map (fun b => b.map (Instr.rauw a v)) := by
  simp [rauwBlocks, List.getElem?_map]

theorem rauwBlocks_length (a : Nat) (v : Value)
    (bs : List (List Instr)) :
    (rauwBlocks a v bs).length = bs.length := by
  simp [rauwBlocks]

theorem rauwBlocks_set (a : Nat) (v : Value) (bs : List (List Instr))
    (bi : Nat) (b : List Instr) :
    rauwBlocks a v (bs.set bi b) =
      (rauwBlocks a v bs).set bi (b.map (Instr.rauw a v)) := by
  simp [rauwBlocks, List.map_set]

theorem removeAt_at_length (P Q : List Instr) (x : Instr) (n : Nat)
    (h : P.length = n) : removeAt (P ++ x :: Q) n = P ++ Q := by
  subst h
  exact removeAt_append P Q x

theorem map_rauw_split (a : Nat) (v : Value) (b : List Instr) (ii : Nat)
    (x : Instr) (hx : b[ii]? = some x) :
    b.map (Instr.rauw a v) =
      (b.take ii).map (Instr.rauw a v) ++
        Instr.rauw a v x :: (b.drop (ii + 1)).map (Instr.rauw a v) := by
  conv_lhs => rw [eq_take_cons_drop b ii x hx]
  simp

theorem length_map_take (a : Nat) (v : Value) (b : List Instr)
    (ii : Nat) (h : ii < b.length) :
    ((b.take ii).map (Instr.rauw a v)).length = ii := by
  simp only [List.length_map, List.length_take]
  omega

/-- The blocks of the function after the `RuntimeMiscompile` mutation:
every block is use-substituted, and in block `bi` the matched instruction
(at index `ii`) has been removed. -/
theorem injectMiscompile_blocks (f : SILFunction) (bi ii aid : Nat)
    (ty : Ty) (b : List Instr) (x : Instr)
    (hb : f.blocks[bi]? = some b) (hx : b[ii]? = some x) :
    (injectMiscompile f bi ii aid ty).blocks =
      (rauwBlocks aid (Value.undef ty) f.blocks).set bi
        ((b.take ii).map (Instr.rauw aid (Value.undef ty)) ++
          (b.drop (ii + 1)).map (Instr.rauw aid (Value.undef ty))) := by
  have hlt : ii < b.length := (List.getElem?_eq_some.mp hx).1
  have hget : (rauwBlocks aid (Value.undef ty) f.blocks).getD bi [] =
      b.map (Instr.rauw aid (Value.undef ty)) := by
    rw [List.getD_eq_getElem?_getD, rauwBlocks_getElem?, hb]
    rfl
  simp only [injectMiscompile, hget]
  rw [map_rauw_split aid (Value.undef ty) b ii x hx,
    removeAt_at_length _ _ _ _
      (length_map_take aid (Value.undef ty) b ii hlt)]

theorem injectMiscompile_name (f : SILFunction) (bi ii aid : Nat)
    (ty : Ty) : (injectMiscompile f bi ii aid ty).name = f.name := by
  simp only [injectMiscompile]

/-- The blocks of the function after the `RuntimeCrasher` mutation:
every block is use-substituted, and in block `bi` the matched instruction
has been replaced by a `FunctionRefInst` to the stub followed by an
`ApplyInst` of it with no arguments. -/
theorem injectCrasher_blocks (f : SILFunction) (bi ii aid : Nat)
    (ty : Ty) (stub : String) (b : List Instr) (x : Instr)
    (hb : f.blocks[bi]? = some b) (hx : b[ii]? = some x) :
    (injectCrasher f bi ii aid ty stub).blocks =
      (rauwBlocks aid (Value.undef ty) f.blocks).set bi
        ((b.take ii).map (Instr.rauw aid (Value.undef ty)) ++
          Instr.functionRef (freshId f.blocks) stub ::
          Instr.apply (freshId f.blocks + 1) (Callee.functionRef stub)
            [] Ty.emptyTuple ::
          (b.drop (ii + 1)).map (Instr.rauw aid (Value.undef ty))) := by
  have hlt : ii < b.length := (List.getElem?_eq_some.mp hx).1
  have hlt2 : bi < f.blocks.length := (List.getElem?_eq_some.mp hb).1
  have hbd : f.blocks.getD bi [] = b := by
    rw [List.getD_eq_getElem?_getD, hb]
    rfl
  simp only [injectCrasher, hbd]
  rw [rauwBlocks_set]
  rw [List.set_set]
  have hget : ((rauwBlocks aid (Value.undef ty) f.blocks).set bi
      ((insertAt b ii
        [Instr.functionRef (freshId f.blocks) stub,
         Instr.apply (freshId f.blocks + 1) (Callee.functionRef stub)
           [] Ty.emptyTuple]).map
        (Instr.rauw aid (Value.undef ty)))).getD bi [] =
      (insertAt b ii
        [Instr.functionRef (freshId f.blocks) stub,
         Instr.apply (freshId f.blocks + 1) (Callee.functionRef stub)
           [] Ty.emptyTuple]).map (Instr.rauw aid (Value.undef ty)) := by
    rw [List.getD_eq_getElem?_getD,
      List.getElem?_set_eq_of_lt _ (by rw [rauwBlocks_length]; omega)]
    rfl
  rw [hget]
  congr 1
  unfold insertAt
  simp only [List.map_append, List.map_cons, List.map_nil]
  have hdrop : (b.drop ii).map (Instr.rauw aid (Value.undef ty)) =
      Instr.rauw aid (Value.undef ty) x ::
        (b.drop (ii + 1)).map (Instr.rauw aid (Value.undef ty)) := by
    rw [List.drop_eq_getElem_cons hlt]
    have hx2 : b[ii] = x := by
      have h2 := List.getElem?_eq_getElem hlt
      rw [hx] at h2
      exact (Option.some.injEq _ _ ▸ h2.symm)
    rw [hx2, List.map_cons]
  rw [hdrop]
  have hP : ((b.take ii).map (Instr.rauw aid (Value.undef ty)) ++
      [Instr.rauw aid (Value.undef ty)
          (Instr.functionRef (freshId f.blocks) stub),
        Instr.rauw aid (Value.undef ty)
          (Instr.apply (freshId f.blocks + 1) (Callee.functionRef stub)
            [] Ty.emptyTuple)]).length = ii + 2 := by
    simp only [List.length_append, List.length_map, List.length_take,
      List.length_cons, List.length_nil]
    omega
  have hfin := removeAt_at_length
    ((b.take ii).map (Instr.rauw aid (Value.undef ty)) ++
      [Instr.rauw aid (Value.undef ty)
          (Instr.functionRef (freshId f.blocks) stub),
        Instr.rauw aid (Value.undef ty)
          (Instr.apply (freshId f.blocks + 1) (Callee.functionRef stub)
            [] Ty.emptyTuple)])
    ((b.drop (ii + 1)).map (Instr.rauw aid (Value.undef ty)))
    (Instr.rauw aid (Value.undef ty) x) (ii + 2) hP
  simp only [List.append_assoc, List.cons_append, List.nil_append]
    at hfin ⊢
  rw [hfin]
  simp [Instr.rauw, Callee.subst]

theorem injectCrasher_name (f : SILFunction) (bi ii aid : Nat) (ty : Ty)
    (stub : String) : (injectCrasher f bi ii aid ty stub).name = f.name := by
  simp only [injectCrasher]

/-! ### Counting lemmas for the two destructive injections -/

theorem mem_of_getElem2 {α : Type} {l : List α} {n : Nat} {a : α}
    (h : l[n]? = some a) : a ∈ l := by
  have hlt : n < l.length := (List.getElem?_eq_some.mp h).1
  have h2 : l[n] = a := by simpa [List.getElem?_eq_getElem hlt] using h
  exact h2 ▸ List.getElem_mem hlt

theorem countP_le_matchCount (t : String) : ∀ (bs : List (List Instr))
    (bj : Nat) (b2 : List Instr), bs[bj]? = some b2 →
    b2.countP (fun i => isTargetApply t i) ≤ matchCount t bs := by
  intro bs
  induction bs with
  | nil => intro bj b2 h; simp at h
  | cons b0 rest ih =>
    intro bj b2 h
    cases bj with
    | zero =>
      simp only [List.getElem?_cons_zero, Option.some.injEq] at h
      subst h
      simp only [matchCount]
      omega
    | succ bj2 =>
      simp only [List.getElem?_cons_succ] at h
      have h2 := ih bj2 b2 h
      simp only [matchCount]
      omega

theorem countP_split (t : String) (b : List Instr) (ii : Nat) (x : Instr)
    (hx : b[ii]? = some x) :
    b.countP (fun i => isTargetApply t i) =
      (b.take ii).countP (fun i => isTargetApply t i) +
        (if isTargetApply t x then 1 else 0) +
        (b.drop (ii + 1)).countP (fun i => isTargetApply t i) := by
  conv_lhs => rw [eq_take_cons_drop b ii x hx]
  simp only [List.countP_append, List.countP_cons]
  by_cases hxx : isTargetApply t x <;> simp only [hxx, if_true,
    ite_true, if_false, Bool.false_eq_true, ite_false] <;> omega

theorem matchCount_injectMiscompile (t2 : String) (f : SILFunction)
    (bi ii aid : Nat) (ty : Ty) (b : List Instr) (x : Instr)
    (hb : f.blocks[bi]? = some b) (hx : b[ii]? = some x) :
    matchCount t2 (injectMiscompile f bi ii aid ty).blocks +
      (if isTargetApply t2 x then 1 else 0) = matchCount t2 f.blocks := by
  rw [injectMiscompile_blocks f bi ii aid ty b x hb hx]
  have hS : (rauwBlocks aid (Value.undef ty) f.blocks)[bi]? =
      some (b.map (Instr.rauw aid (Value.undef ty))) := by
    rw [rauwBlocks_getElem?, hb]
    rfl
  have hset := matchCount_set t2 (rauwBlocks aid (Value.undef ty) f.blocks)
    bi (b.map (Instr.rauw aid (Value.undef ty)))
    ((b.take ii).map (Instr.rauw aid (Value.undef ty)) ++
      (b.drop (ii + 1)).map (Instr.rauw aid (Value.undef ty))) hS
  rw [matchCount_rauwBlocks, countP_rauw, List.countP_append, countP_rauw,
    countP_rauw] at hset
  have hsplit := countP_split t2 b ii x hx
  by_cases hc : isTargetApply t2 x <;> simp only [hc, if_true, if_false,
    Bool.false_eq_true, ite_true, ite_false] at hsplit ⊢ <;> omega

theorem matchCount_injectCrasher (t2 : String) (f : SILFunction)
    (bi ii aid : Nat) (ty : Ty) (stub : String) (b : List Instr)
    (x : Instr) (hb : f.blocks[bi]? = some b) (hx : b[ii]? = some x) :
    matchCount t2 (injectCrasher f bi ii aid ty stub).blocks +
      (if isTargetApply t2 x then 1 else 0) =
      matchCount t2 f.blocks + (if stub = t2 then 1 else 0) := by
  rw [injectCrasher_blocks f bi ii aid ty stub b x hb hx]
  have hS : (rauwBlocks aid (Value.undef ty) f.blocks)[bi]? =
      some (b.map (Instr.rauw aid (Value.undef ty))) := by
    rw [rauwBlocks_getElem?, hb]
    rfl
  have hset := matchCount_set t2 (rauwBlocks aid (Value.undef ty) f.blocks)
    bi (b.map (Instr.rauw aid (Value.undef ty)))
    ((b.take ii).map (Instr.rauw aid (Value.undef ty)) ++
      Instr.functionRef (freshId f.blocks) stub ::
      Instr.apply (freshId f.blocks + 1) (Callee.functionRef stub) []
        Ty.emptyTuple ::
      (b.drop (ii + 1)).map (Instr.rauw aid (Value.undef ty))) hS
  rw [matchCount_rauwBlocks, countP_rauw, List.countP_append,
    List.countP_cons, List.countP_cons, countP_rauw, countP_rauw] at hset
  have hsplit := countP_split t2 b ii x hx
  have hfri : isTargetApply t2 (Instr.functionRef (freshId f.blocks) stub) =
      false := rfl
  have happ : (if isTargetApply t2
      (Instr.apply (freshId f.blocks + 1) (Callee.functionRef stub) []
        Ty.emptyTuple) then 1 else 0) = (if stub = t2 then 1 else 0) := by
    simp [isTargetApply]
  rw [hfri, happ] at hset
  by_cases hc : isTargetApply t2 x <;>
    by_cases hs : stub = t2 <;>
    simp only [hc, hs, if_true, if_false, Bool.false_eq_true, ite_true,
      ite_false] at hsplit hset ⊢ <;> omega

/-! ### The stub factory -/

theorem findFunction?_name (m : Module) (n : String) (g : SILFunction)
    (h : m.findFunction? n = some g) : g.name = n := by
  have h2 := List.find?_some h
  simpa using h2

theorem findFunction?_none_mem (m : Module) (n : String)
    (h : m.findFunction? n = Option.none) :
    ∀ g ∈ m.functions, ¬ g.name = n := by
  intro g hg
  have h2 := List.find?_eq_none.mp h g hg
  simpa using h2

theorem getRuntimeCrasher_defined (m : Module) (g : SILFunction)
    (h : m.findFunction? RuntimeCrasherFunctionName = some g)
    (hdef : g.isDefinition = true) :
    getRuntimeCrasherFunction m = (m, g) := by
  unfold getRuntimeCrasherFunction getOrCreateSharedFunction
  simp [h, hdef]

theorem getRuntimeCrasher_fresh (m : Module)
    (h : m.findFunction? RuntimeCrasherFunctionName = Option.none) :
    getRuntimeCrasherFunction m =
      (⟨m.functions ++
          [⟨RuntimeCrasherFunctionName,
            [[Instr.builtinTrap, Instr.unreachable]]⟩]⟩,
        ⟨RuntimeCrasherFunctionName,
          [[Instr.builtinTrap, Instr.unreachable]]⟩) := by
  unfold getRuntimeCrasherFunction getOrCreateSharedFunction
  simp only [h, SILFunction.isDefinition, List.isEmpty_nil,
    Bool.not_true, Bool.false_eq_true, if_false, ite_false]
  unfold Module.setFunction
  have hmap : (m.functions ++
      [(⟨RuntimeCrasherFunctionName, []⟩ : SILFunction)]).map
      (fun g => if g.name = RuntimeCrasherFunctionName then
        (⟨RuntimeCrasherFunctionName,
          [[Instr.builtinTrap, Instr.unreachable]]⟩ : SILFunction)
        else g) =
      m.functions ++
        [⟨RuntimeCrasherFunctionName,
          [[Instr.builtinTrap, Instr.unreachable]]⟩] := by
    rw [List.map_append]
    congr 1
    conv_rhs => rw [← List.map_id m.functions]
    refine List.map_congr_left ?_
    intro g hg
    simp [findFunction?_none_mem m _ h g hg]
  simp only [hmap]

theorem getRuntimeCrasher_declared (m : Module) (g : SILFunction)
    (h : m.findFunction? RuntimeCrasherFunctionName = some g)
    (hdef : g.isDefinition = false) :
    getRuntimeCrasherFunction m =
      (m.setFunction RuntimeCrasherFunctionName
          ⟨RuntimeCrasherFunctionName,
            [[Instr.builtinTrap, Instr.unreachable]]⟩,
        ⟨RuntimeCrasherFunctionName,
          [[Instr.builtinTrap, Instr.unreachable]]⟩) := by
  have hname : g.name = RuntimeCrasherFunctionName :=
    findFunction?_name m _ g h
  unfold getRuntimeCrasherFunction getOrCreateSharedFunction
  simp [h, hdef, hname]

theorem find?_map_replace (n : String) (f : SILFunction)
    (hf : f.name = n) : ∀ (l : List SILFunction) (g : SILFunction),
    l.find? (fun x => x.name = n) = some g →
    (l.map (fun x => if x.name = n then f else x)).find?
      (fun x => x.name = n) = some f := by
  intro l
  induction l with
  | nil => intro g h; simp at h
  | cons x rest ih =>
    intro g h
    by_cases hx : x.name = n
    · rw [List.map_cons, List.find?_cons_of_pos _ (by simp [hx, hf])]
      simp [hx]
    · rw [List.find?_cons_of_neg _ (by simpa using hx)] at h
      rw [List.map_cons, List.find?_cons_of_neg _ (by simp [hx])]
      exact ih g h

theorem find?_set_preserve (p : SILFunction → Bool) :
    ∀ (l : List SILFunction) (i : Nat) (x y : SILFunction),
    l[i]? = some y → p y = false → p x = false →
    (l.set i x).find? p = l.find? p := by
  intro l
  induction l with
  | nil => intro i x y h; simp at h
  | cons a rest ih =>
    intro i x y h hy hx
    cases i with
    | zero =>
      simp only [List.getElem?_cons_zero, Option.some.injEq] at h
      subst h
      rw [List.set_cons_zero, List.find?_cons_of_neg _ (by simp [hx]),
        List.find?_cons_of_neg _ (by simp [hy])]
    | succ i2 =>
      simp only [List.getElem?_cons_succ] at h
      rw [List.set_cons_succ]
      by_cases ha : p a
      · rw [List.find?_cons_of_pos _ ha, List.find?_cons_of_pos _ ha]
      · rw [List.find?_cons_of_neg _ ha, List.find?_cons_of_neg _ ha]
        exact ih i2 x y h hy hx

theorem isTargetApply_other_target (t t2 : String) (x : Instr)
    (hx : isTargetApply t x = true) (hne : ¬ t2 = t) :
    isTargetApply t2 x = false := by
  cases x with
  | apply id c args ty =>
    cases c with
    | functionRef n =>
      simp only [isTargetApply, decide_eq_true_eq] at hx
      simp only [isTargetApply, hx, decide_eq_false_iff_not]
      intro h
      exact hne h.symm
    | indirect v => rfl
  | functionRef id n => rfl
  | builtinTrap => rfl
  | unreachable => rfl
  | other id ops => rfl

theorem not_mem_of_matchCount_zero (t : String) (x : Instr)
    (hx : isTargetApply t x = true) : ∀ (bs : List (List Instr)),
    matchCount t bs = 0 → ∀ b ∈ bs, ¬ x ∈ b := by
  intro bs
  induction bs with
  | nil => intro _ b hb; simp at hb
  | cons b0 rest ih =>
    intro h b hb hxb
    simp only [matchCount, Nat.add_eq_zero] at h
    rcases List.mem_cons.mp hb with hEq | hMem
    · subst hEq
      have h2 := (List.countP_eq_zero).mp h.1 x hxb
      exact h2 hx
    · exact ih h.2 b hMem hxb

theorem injectMiscompile_mem (f : SILFunction) (bi ii aid : Nat)
    (ty : Ty) (b : List Instr) (x : Instr)
    (hb : f.blocks[bi]? = some b) (hx : b[ii]? = some x) :
    ∀ bk ∈ (injectMiscompile f bi ii aid ty).blocks, ∀ i2 ∈ bk,
      ∃ i0, i2 = Instr.rauw aid (Value.undef ty) i0 := by
  rw [injectMiscompile_blocks f bi ii aid ty b x hb hx]
  intro bk hbk i2 hi2
  rcases List.mem_or_eq_of_mem_set hbk with hmem | heq
  · simp only [rauwBlocks] at hmem
    obtain ⟨b0, hb0, rfl⟩ := List.mem_map.mp hmem
    obtain ⟨i0, hi0, rfl⟩ := List.mem_map.mp hi2
    exact ⟨i0, rfl⟩
  · subst heq
    rcases List.mem_append.mp hi2 with h1 | h2
    · obtain ⟨i0, hi0, rfl⟩ := List.mem_map.mp h1
      exact ⟨i0, rfl⟩
    · obtain ⟨i0, hi0, rfl⟩ := List.mem_map.mp h2
      exact ⟨i0, rfl⟩

theorem injectCrasher_mem (f : SILFunction) (bi ii aid : Nat) (ty : Ty)
    (stub : String) (b : List Instr) (x : Instr)
    (hb : f.blocks[bi]? = some b) (hx : b[ii]? = some x) :
    ∀ bk ∈ (injectCrasher f bi ii aid ty stub).blocks, ∀ i2 ∈ bk,
      ∃ i0, i2 = Instr.rauw aid (Value.undef ty) i0 := by
  rw [injectCrasher_blocks f bi ii aid ty stub b x hb hx]
  intro bk hbk i2 hi2
  rcases List.mem_or_eq_of_mem_set hbk with hmem | heq
  · simp only [rauwBlocks] at hmem
    obtain ⟨b0, hb0, rfl⟩ := List.mem_map.mp hmem
    obtain ⟨i0, hi0, rfl⟩ := List.mem_map.mp hi2
    exact ⟨i0, rfl⟩
  · subst heq
    rcases List.mem_append.mp hi2 with h1 | h2
    · obtain ⟨i0, hi0, rfl⟩ := List.mem_map.mp h1
      exact ⟨i0, rfl⟩
    · rcases List.mem_cons.mp h2 with hfri | h3
      · exact ⟨Instr.functionRef (freshId f.blocks) stub, by rw [hfri]; rfl⟩
      · rcases List.mem_cons.mp h3 with happ | h4
        · exact ⟨Instr.apply (freshId f.blocks + 1)
            (Callee.functionRef stub) [] Ty.emptyTuple, by rw [happ]; rfl⟩
        · obtain ⟨i0, hi0, rfl⟩ := List.mem_map.mp h4
          exact ⟨i0, rfl⟩

theorem findFunction?_mk (l : List SILFunction) (n : String) :
    Module.findFunction? ⟨l⟩ n = l.find? (fun f => f.name = n) := rfl

theorem findFunction?_setFunction (m : Module) (n : String)
    (f : SILFunction) :
    (m.setFunction n f).findFunction? n =
      (m.functions.map (fun x => if x.name = n then f else x)).find?
        (fun x => x.name = n) := rfl

theorem functionMatches_true (t : String) (m : Module) (j : Nat)
    (h : functionMatches t m j = true) :
    ∃ f bi ii inst, m.functions[j]? = some f ∧
      findTargetApply t f.blocks = some (bi, ii, inst) := by
  unfold functionMatches at h
  cases hf : m.functions[j]? with
  | none => simp [hf] at h
  | some f =>
    simp only [hf] at h
    obtain ⟨⟨bi, ii, inst⟩, hfind⟩ := Option.isSome_iff_exists.mp h
    exact ⟨f, bi, ii, inst, rfl, hfind⟩

theorem runSchedule_skip (cfg : Config)
    (hk : ¬ cfg.targetFailureKind = FailureKind.none) :
    ∀ (pre : List Nat) (rest : List Nat) (m : Module),
    (∀ i ∈ pre, functionMatches cfg.functionTarget m i = false) →
    runSchedule cfg (pre ++ rest) false m =
      runSchedule cfg rest false m := by
  intro pre
  induction pre with
  | nil => intro rest m _; rfl
  | cons i pre2 ih =>
    intro rest m h
    have hstep : runPass cfg false m i = .ok false m := by
      apply runPass_noMatch cfg m i hk
      intro f hf
      have h2 := h i (by simp)
      simp only [functionMatches, hf] at h2
      exact Option.not_isSome_iff_eq_none.mp (by simp [h2])
    simp only [List.cons_append, runSchedule, hstep]
    exact ih rest m (fun i2 hi2 => h i2 (by simp [hi2]))

theorem setAt_getElem (m : Module) (i : Nat) (f2 : SILFunction)
    (h : i < m.functions.length) :
    (m.setAt i f2).functions[i]? = some f2 := by
  show (m.functions.set i f2)[i]? = some f2
  exact List.getElem?_set_eq_of_lt f2 h

theorem setAt_getElem_ne (m : Module) (i k : Nat) (f2 : SILFunction)
    (h : ¬ i = k) : (m.setAt i f2).functions[k]? = m.functions[k]? := by
  show (m.functions.set i f2)[k]? = m.functions[k]?
  exact List.getElem?_set_ne h

theorem getRuntimeCrasher_sndName (m : Module) :
    (getRuntimeCrasherFunction m).2.name = RuntimeCrasherFunctionName := by
  cases hfind : m.findFunction? RuntimeCrasherFunctionName with
  | none => rw [getRuntimeCrasher_fresh m hfind]
  | some s =>
    cases hdef : s.isDefinition with
    | true =>
      rw [getRuntimeCrasher_defined m s hfind hdef]
      exact findFunction?_name m _ s hfind
    | false => rw [getRuntimeCrasher_declared m s hfind hdef]

theorem getRuntimeCrasher_len (m : Module) :
    m.functions.length ≤
      (getRuntimeCrasherFunction m).1.functions.length := by
  cases hfind : m.findFunction? RuntimeCrasherFunctionName with
  | none =>
    rw [getRuntimeCrasher_fresh m hfind]
    show m.functions.length ≤ (m.functions ++ [trapStub]).length
    simp
  | some s =>
    cases hdef : s.isDefinition with
    | true => rw [getRuntimeCrasher_defined m s hfind hdef]
    | false =>
      rw [getRuntimeCrasher_declared m s hfind hdef]
      show m.functions.length ≤ (m.functions.map _).length
      simp

theorem getRuntimeCrasher_preserves (m : Module) (k : Nat)
    (g : SILFunction) (hg : m.functions[k]? = some g)
    (hname : ¬ g.name = RuntimeCrasherFunctionName) :
    (getRuntimeCrasherFunction m).1.functions[k]? = some g := by
  have hk : k < m.functions.length := (List.getElem?_eq_some.mp hg).1
  cases hfind : m.findFunction? RuntimeCrasherFunctionName with
  | none =>
    rw [getRuntimeCrasher_fresh m hfind]
    show (m.functions ++ [trapStub])[k]? = some g
    rw [List.getElem?_append]
    simp only [hk, if_true, ite_true]
    exact hg
  | some s =>
    cases hdef : s.isDefinition with
    | true =>
      rw [getRuntimeCrasher_defined m s hfind hdef]
      exact hg
    | false =>
      rw [getRuntimeCrasher_declared m s hfind hdef]
      show (m.functions.map
        (fun x => if x.name = RuntimeCrasherFunctionName then trapStub
          else x))[k]? = some g
      rw [List.getElem?_map, hg]
      simp [hname]

/-! ### Claim theorems -/

/-- C1: exactly-once across a run. With an injecting failure kind, a
non-empty target, the injected flag initially false, a schedule whose
functions before position `j` contain no matching call and whose function
at `j` contains one, the whole run returns exactly the state produced by
the single invocation at `j`: that invocation sets the flag to true and
performs the one injection at the first matching site, every earlier
invocation changes nothing, and every later invocation is suppressed by
the flag — so exactly one call site is injected, the first encountered in
function-then-block-then-instruction order, never zero and never more
than one, and the flag transitions to true exactly once and is never
reset. -/
theorem C1_exactly_once (cfg : Config) (m : Module) (pre post : List Nat)
    (j : Nat) (ht : ¬ cfg.functionTarget = "")
    (hk : cfg.targetFailureKind = FailureKind.runtimeMiscompile ∨
      cfg.targetFailureKind = FailureKind.runtimeCrasher)
    (hstubne : ¬ cfg.functionTarget = RuntimeCrasherFunctionName)
    (hpre : ∀ i ∈ pre, functionMatches cfg.functionTarget m i = false)
    (hj : functionMatches cfg.functionTarget m j = true) :
    ∃ m2, runPass cfg false m j = RunResult.ok true m2 ∧
      runSchedule cfg (pre ++ j :: post) false m =
        RunResult.ok true m2 ∧
      (∃ fj f2, m.functions[j]? = some fj ∧
        m2.functions[j]? = some f2 ∧
        matchCount cfg.functionTarget f2.blocks + 1 =
          matchCount cfg.functionTarget fj.blocks) := by
  obtain ⟨f, bi, ii, inst, hf, hfind⟩ := functionMatches_true _ m j hj
  obtain ⟨b, hb, hx, hmatch, hblks, hinstr⟩ := findTargetApply_some hfind
  have hfidx : j < m.functions.length := (List.getElem?_eq_some.mp hf).1
  have hknone : ¬ cfg.targetFailureKind = FailureKind.none := by
    rcases hk with h | h <;> simp [h]
  have hrun : ∃ m2, runPass cfg false m j = RunResult.ok true m2 ∧
      ∃ f2, m2.functions[j]? = some f2 ∧
        matchCount cfg.functionTarget f2.blocks + 1 =
          matchCount cfg.functionTarget f.blocks := by
    rcases hk with h | h
    · have hmc0 := matchCount_injectMiscompile cfg.functionTarget f bi
        ii inst.applyId inst.applyResTy b inst hb hx
      rw [hmatch] at hmc0
      simp only [if_true, ite_true] at hmc0
      exact ⟨_, runPass_miscompile cfg m j f bi ii inst ht h hf hfind,
        _, setAt_getElem m j _ hfidx, hmc0⟩
    · have hrun0 := runPass_crasher cfg m j f bi ii inst ht h hf hfind
      rw [getRuntimeCrasher_sndName m] at hrun0
      have hneStub : ¬ RuntimeCrasherFunctionName = cfg.functionTarget :=
        fun h2 => hstubne h2.symm
      have hmc0 := matchCount_injectCrasher cfg.functionTarget f bi ii
        inst.applyId inst.applyResTy RuntimeCrasherFunctionName b inst
        hb hx
      rw [hmatch] at hmc0
      simp only [hneStub, if_true, ite_true, if_false, ite_false,
        Nat.add_zero] at hmc0
      exact ⟨_, hrun0, _,
        setAt_getElem _ j _
          (lt_of_lt_of_le hfidx (getRuntimeCrasher_len m)), hmc0⟩
  obtain ⟨m2, hm2, f2, hf2, hmc⟩ := hrun
  refine ⟨m2, hm2, ?_, f, f2, hf, hf2, hmc⟩
  rw [runSchedule_skip cfg hknone pre (j :: post) m hpre]
  simp [runSchedule, hm2, runSchedule_flagSet]

theorem C1_witness :
    ∃ m2, runPass cfgMis false exModule 1 = RunResult.ok true m2 ∧
      runSchedule cfgMis ([0] ++ 1 :: [2]) false exModule =
        RunResult.ok true m2 ∧
      (∃ fj f2, exModule.functions[1]? = some fj ∧
        m2.functions[1]? = some f2 ∧
        matchCount "target" f2.blocks + 1 =
          matchCount "target" fj.blocks) :=
  C1_exactly_once cfgMis exModule [0] [2] 1 (by decide) (Or.inl rfl)
    (by decide) (by decide) (by decide)

/-- C2: with failure kind `none` and a non-empty target, the pass never
mutates the function or module and never sets the injected flag, whether
or not a matching call exists: it either returns its input state
unchanged (flag already set) or terminates at the failed
`assert(TargetFailureKind != FailureKind::None)` with the module still in
its entry state. -/
theorem C2_none_kind_no_mutation (cfg : Config) (ce : Bool) (m : Module)
    (i : Nat) (ht : ¬ cfg.functionTarget = "")
    (hk : cfg.targetFailureKind = FailureKind.none) :
    runPass cfg ce m i = RunResult.ok ce m ∨
      runPass cfg ce m i = RunResult.abort m := by
  cases ce with
  | true => exact Or.inl (runPass_flagSet cfg m i)
  | false => exact Or.inr (runPass_noneKind cfg m i ht hk)

theorem C2_witness :
    runPass cfgDisabled false exModule 1 = RunResult.ok false exModule ∨
      runPass cfgDisabled false exModule 1 =
        RunResult.abort exModule :=
  C2_none_kind_no_mutation cfgDisabled false exModule 1 (by decide) rfl

/-- C5: under the optimizer-crasher kind, invoking the pass on a
function with a matching call and the flag unset always aborts
(`llvm_unreachable("Found the target!")`) instead of returning normally,
and the module carried at the abort is the input module unchanged: the
abort happens before any mutation. -/
theorem C5_optimizer_abort (cfg : Config) (m : Module) (fidx : Nat)
    (f : SILFunction) (bi ii : Nat) (inst : Instr)
    (ht : ¬ cfg.functionTarget = "")
    (hk : cfg.targetFailureKind = FailureKind.optimizerCrasher)
    (hf : m.functions[fidx]? = some f)
    (hfind : findTargetApply cfg.functionTarget f.blocks =
      some (bi, ii, inst)) :
    runPass cfg false m fidx = RunResult.abort m :=
  runPass_optCrasher cfg m fidx f bi ii inst ht hk hf hfind

theorem C5_witness :
    runPass cfgAbort false exModule 1 = RunResult.abort exModule :=
  C5_optimizer_abort cfgAbort exModule 1 exFunMain 0 0 exTargetApply
    (by decide) rfl rfl (by decide)

/-- C8: for every configuration whose target function name is the empty
string, one invocation of the pass on any function, under every failure
kind and either flag state, returns its input state exactly: no function
or module mutation and no change to the injected flag. -/
theorem C8_empty_target_no_mutation (cfg : Config) (ce : Bool)
    (m : Module) (i : Nat) (h : cfg.functionTarget = "") :
    runPass cfg ce m i = RunResult.ok ce m :=
  runPass_emptyTarget cfg ce m i h

theorem C8_witness :
    runPass ⟨"", FailureKind.runtimeCrasher⟩ false exModule 1 =
      RunResult.ok false exModule :=
  C8_empty_target_no_mutation ⟨"", FailureKind.runtimeCrasher⟩ false
    exModule 1 rfl

/-- C7: the Matcher returns the first instruction — scanning basic blocks
in the function's order and instructions within each block in program
order — that is an apply whose callee is a direct function reference
resolving to the target name: the returned position holds such a match
and every lexicographically earlier instruction is a non-match; an apply
with an indirect callee never matches; and when no instruction qualifies
the scan reports no match. -/
theorem C7_matcher_first (t : String) (bs : List (List Instr)) :
    (∀ bi ii inst, findTargetApply t bs = some (bi, ii, inst) →
      ∃ b, bs[bi]? = some b ∧ b[ii]? = some inst ∧
        isTargetApply t inst = true ∧
        (∀ bj b2, bj < bi → bs[bj]? = some b2 →
          ∀ i2 ∈ b2, isTargetApply t i2 = false) ∧
        (∀ k i2, k < ii → b[k]? = some i2 →
          isTargetApply t i2 = false)) ∧
    (findTargetApply t bs = Option.none →
      ∀ b ∈ bs, ∀ i ∈ b, isTargetApply t i = false) ∧
    (∀ id v args ty,
      isTargetApply t (Instr.apply id (Callee.indirect v) args ty) =
        false) := by
  refine ⟨?_, ?_, ?_⟩
  · intro bi ii inst h
    obtain ⟨b, hb, hget, hmatch, hblocks, hinstr⟩ :=
      findTargetApply_some h
    exact ⟨b, hb, hget, hmatch,
      fun bj b2 hlt hget2 i2 hi2 => hblocks bj hlt b2 hget2 i2 hi2,
      fun k i2 hlt hget2 => hinstr k hlt i2 hget2⟩
  · intro h
    exact findTargetApply_none h
  · intro id v args ty
    rfl

theorem C7_witness : isTargetApply "target" exTargetApply = true := by
  obtain ⟨b, hb, hget, hmatch, h1, h2⟩ :=
    (C7_matcher_first "target" exFunMain.blocks).1 0 0 exTargetApply
      (by decide)
  exact hmatch

/-- C6: the trap-stub factory is idempotent per module: after one call of
`getRuntimeCrasherFunction`, calling it again on the resulting module
returns exactly the same module and the same, already-defined stub
unchanged — the stub is created and defined at most once per module and
never redefined. -/
theorem C6_stub_idempotent (m : Module) :
    getRuntimeCrasherFunction (getRuntimeCrasherFunction m).1 =
      getRuntimeCrasherFunction m := by
  cases hfind : m.findFunction? RuntimeCrasherFunctionName with
  | none =>
    rw [getRuntimeCrasher_fresh m hfind]
    apply getRuntimeCrasher_defined
    · rw [findFunction?_mk, List.find?_append]
      have h1 : m.functions.find?
          (fun f => f.name = RuntimeCrasherFunctionName) = Option.none :=
        hfind
      rw [h1]
      rfl
    · rfl
  | some g =>
    cases hdef : g.isDefinition with
    | true =>
      rw [getRuntimeCrasher_defined m g hfind hdef]
      exact getRuntimeCrasher_defined m g hfind hdef
    | false =>
      rw [getRuntimeCrasher_declared m g hfind hdef]
      apply getRuntimeCrasher_defined
      · rw [findFunction?_setFunction]
        exact find?_map_replace RuntimeCrasherFunctionName _ rfl
          m.functions g hfind
      · rfl

/-- C3: runtime-miscompile functional correctness. For a function whose
blocks contain exactly one direct call to the target, matched at block
`bi` and instruction index `ii`, with the injected flag false: the
invocation returns with the flag true and the module updated only at that
function; in the updated function the matched block has exactly one
instruction fewer, the matched call instruction is absent from every
block, no instruction uses the call's result any longer — every
instruction of the updated function is an instruction of the old one with
each use of that result replaced by an Undefined placeholder of the
call's result type — and once the flag is true any further invocation
returns its input unchanged. -/
theorem C3_miscompile (cfg : Config) (m : Module) (fidx : Nat)
    (f : SILFunction) (bi ii : Nat) (inst : Instr)
    (ht : ¬ cfg.functionTarget = "")
    (hk : cfg.targetFailureKind = FailureKind.runtimeMiscompile)
    (hf : m.functions[fidx]? = some f)
    (hfind : findTargetApply cfg.functionTarget f.blocks =
      some (bi, ii, inst))
    (huniq : matchCount cfg.functionTarget f.blocks = 1) :
    ∃ f2 b b2,
      runPass cfg false m fidx = RunResult.ok true (m.setAt fidx f2) ∧
      (m.setAt fidx f2).functions[fidx]? = some f2 ∧
      f.blocks[bi]? = some b ∧
      f2.blocks[bi]? = some b2 ∧
      b2.length + 1 = b.length ∧
      matchCount cfg.functionTarget f2.blocks = 0 ∧
      (∀ b3 ∈ f2.blocks, ¬ inst ∈ b3) ∧
      usesResult f2.blocks inst.applyId = false ∧
      (∀ bk ∈ f2.blocks, ∀ i2 ∈ bk, ∃ i0,
        i2 = Instr.rauw inst.applyId (Value.undef inst.applyResTy) i0) ∧
      (∀ m3 k, runPass cfg true m3 k = RunResult.ok true m3) := by
  obtain ⟨b, hb, hx, hmatch, hblks, hinstr⟩ := findTargetApply_some hfind
  have hii : ii < b.length := (List.getElem?_eq_some.mp hx).1
  have hbi : bi < f.blocks.length := (List.getElem?_eq_some.mp hb).1
  have hfidx : fidx < m.functions.length := (List.getElem?_eq_some.mp hf).1
  have hblocks2 := injectMiscompile_blocks f bi ii inst.applyId
    inst.applyResTy b inst hb hx
  have hb2 : (injectMiscompile f bi ii inst.applyId
      inst.applyResTy).blocks[bi]? =
      some ((b.take ii).map
          (Instr.rauw inst.applyId (Value.undef inst.applyResTy)) ++
        (b.drop (ii + 1)).map
          (Instr.rauw inst.applyId (Value.undef inst.applyResTy))) := by
    rw [hblocks2]
    exact List.getElem?_set_eq_of_lt _ (by rw [rauwBlocks_length]; omega)
  have hlen : ((b.take ii).map
        (Instr.rauw inst.applyId (Value.undef inst.applyResTy)) ++
      (b.drop (ii + 1)).map
        (Instr.rauw inst.applyId (Value.undef inst.applyResTy))).length
      + 1 = b.length := by
    simp only [List.length_append, List.length_map, List.length_take,
      List.length_drop]
    omega
  have hmc0 := matchCount_injectMiscompile cfg.functionTarget f bi ii
    inst.applyId inst.applyResTy b inst hb hx
  rw [hmatch] at hmc0
  simp only [if_true, ite_true] at hmc0
  have hmc : matchCount cfg.functionTarget
      (injectMiscompile f bi ii inst.applyId inst.applyResTy).blocks =
      0 := by omega
  have hmem := injectMiscompile_mem f bi ii inst.applyId inst.applyResTy
    b inst hb hx
  refine ⟨injectMiscompile f bi ii inst.applyId inst.applyResTy, b, _,
    runPass_miscompile cfg m fidx f bi ii inst ht hk hf hfind,
    setAt_getElem m fidx _ hfidx, hb, hb2, hlen, hmc,
    not_mem_of_matchCount_zero cfg.functionTarget inst hmatch _ hmc,
    usesResult_false _ inst.applyId inst.applyResTy hmem, hmem,
    fun m3 k => runPass_flagSet cfg m3 k⟩

theorem C3_witness :
    ∃ m2, runPass cfgMis false exModule 1 = RunResult.ok true m2 := by
  obtain ⟨f2, b, b2, hrun, hrest⟩ :=
    C3_miscompile cfgMis exModule 1 exFunMain 0 0 exTargetApply
      (by decide) rfl rfl (by decide) (by decide)
  exact ⟨_, hrun⟩

/-- C4: runtime-crash functional correctness, stub not yet present in the
module. For a matched call site with the injected flag false: the
invocation returns flag true; in the mutated function the block now holds,
at the position of the original call, a function reference to the trap
stub immediately followed by a call of the stub with no arguments (one
instruction longer overall); the number of calls of the stub has grown by
exactly one while the matched call itself is gone (one fewer target
match); no instruction uses the original call's result any longer (each
such use now reads an Undefined placeholder); and the module now defines
the stub, whose body is exactly one basic block holding a Trap
instruction followed by an Unreachable terminator. -/
theorem C4_crasher_functional (cfg : Config) (m : Module) (fidx : Nat)
    (f : SILFunction) (bi ii : Nat) (inst : Instr)
    (ht : ¬ cfg.functionTarget = "")
    (hk : cfg.targetFailureKind = FailureKind.runtimeCrasher)
    (hstubne : ¬ cfg.functionTarget = RuntimeCrasherFunctionName)
    (hf : m.functions[fidx]? = some f)
    (hfind : findTargetApply cfg.functionTarget f.blocks =
      some (bi, ii, inst))
    (hfresh : m.findFunction? RuntimeCrasherFunctionName = Option.none) :
    ∃ m2 f2 b b2,
      runPass cfg false m fidx = RunResult.ok true m2 ∧
      m2.functions[fidx]? = some f2 ∧
      f.blocks[bi]? = some b ∧
      f2.blocks[bi]? = some b2 ∧
      b2[ii]? = some (Instr.functionRef (freshId f.blocks)
        RuntimeCrasherFunctionName) ∧
      b2[ii + 1]? = some (Instr.apply (freshId f.blocks + 1)
        (Callee.functionRef RuntimeCrasherFunctionName) []
        Ty.emptyTuple) ∧
      b2.length = b.length + 1 ∧
      matchCount RuntimeCrasherFunctionName f2.blocks =
        matchCount RuntimeCrasherFunctionName f.blocks + 1 ∧
      matchCount cfg.functionTarget f2.blocks + 1 =
        matchCount cfg.functionTarget f.blocks ∧
      usesResult f2.blocks inst.applyId = false ∧
      (∃ stub, m2.findFunction? RuntimeCrasherFunctionName = some stub ∧
        stub.blocks = [[Instr.builtinTrap, Instr.unreachable]]) := by
  obtain ⟨b, hb, hx, hmatch, hblks, hinstr⟩ := findTargetApply_some hfind
  have hii : ii < b.length := (List.getElem?_eq_some.mp hx).1
  have hbi : bi < f.blocks.length := (List.getElem?_eq_some.mp hb).1
  have hfidx : fidx < m.functions.length := (List.getElem?_eq_some.mp hf).1
  have hrun0 := runPass_crasher cfg m fidx f bi ii inst ht hk hf hfind
  rw [getRuntimeCrasher_fresh m hfresh] at hrun0
  have hrun : runPass cfg false m fidx = RunResult.ok true
      ((Module.mk (m.functions ++ [trapStub])).setAt fidx
        (injectCrasher f bi ii inst.applyId inst.applyResTy
          RuntimeCrasherFunctionName)) := hrun0
  have hblocks2 := injectCrasher_blocks f bi ii inst.applyId
    inst.applyResTy RuntimeCrasherFunctionName b inst hb hx
  have hb2 : (injectCrasher f bi ii inst.applyId inst.applyResTy
      RuntimeCrasherFunctionName).blocks[bi]? =
      some ((b.take ii).map
          (Instr.rauw inst.applyId (Value.undef inst.applyResTy)) ++
        Instr.functionRef (freshId f.blocks) RuntimeCrasherFunctionName ::
        Instr.apply (freshId f.blocks + 1)
          (Callee.functionRef RuntimeCrasherFunctionName) []
          Ty.emptyTuple ::
        (b.drop (ii + 1)).map
          (Instr.rauw inst.applyId (Value.undef inst.applyResTy))) := by
    rw [hblocks2]
    exact List.getElem?_set_eq_of_lt _ (by rw [rauwBlocks_length]; omega)
  have hPlen : ((b.take ii).map
      (Instr.rauw inst.applyId (Value.undef inst.applyResTy))).length =
      ii := by
    simp only [List.length_map, List.length_take]
    omega
  have hpos1 : ((b.take ii).map
        (Instr.rauw inst.applyId (Value.undef inst.applyResTy)) ++
      Instr.functionRef (freshId f.blocks) RuntimeCrasherFunctionName ::
      Instr.apply (freshId f.blocks + 1)
        (Callee.functionRef RuntimeCrasherFunctionName) []
        Ty.emptyTuple ::
      (b.drop (ii + 1)).map
        (Instr.rauw inst.applyId (Value.undef inst.applyResTy)))[ii]? =
      some (Instr.functionRef (freshId f.blocks)
        RuntimeCrasherFunctionName) := by
    rw [List.getElem?_append_right (by omega), hPlen]
    simp
  have hpos2 : ((b.take ii).map
        (Instr.rauw inst.applyId (Value.undef inst.applyResTy)) ++
      Instr.functionRef (freshId f.blocks) RuntimeCrasherFunctionName ::
      Instr.apply (freshId f.blocks + 1)
        (Callee.functionRef RuntimeCrasherFunctionName) []
        Ty.emptyTuple ::
      (b.drop (ii + 1)).map
        (Instr.rauw inst.applyId
          (Value.undef inst.applyResTy)))[ii + 1]? =
      some (Instr.apply (freshId f.blocks + 1)
        (Callee.functionRef RuntimeCrasherFunctionName) []
        Ty.emptyTuple) := by
    rw [List.getElem?_append_right (by omega), hPlen]
    simp
  have hlen : ((b.take ii).map
        (Instr.rauw inst.applyId (Value.undef inst.applyResTy)) ++
      Instr.functionRef (freshId f.blocks) RuntimeCrasherFunctionName ::
      Instr.apply (freshId f.blocks + 1)
        (Callee.functionRef RuntimeCrasherFunctionName) []
        Ty.emptyTuple ::
      (b.drop (ii + 1)).map
        (Instr.rauw inst.applyId (Value.undef inst.applyResTy))).length =
      b.length + 1 := by
    simp only [List.length_append, List.length_map, List.length_take,
      List.length_cons, List.length_drop]
    omega
  have hneStub : ¬ RuntimeCrasherFunctionName = cfg.functionTarget :=
    fun h => hstubne h.symm
  have hmcStub := matchCount_injectCrasher RuntimeCrasherFunctionName f
    bi ii inst.applyId inst.applyResTy RuntimeCrasherFunctionName b inst
    hb hx
  rw [isTargetApply_other_target cfg.functionTarget
    RuntimeCrasherFunctionName inst hmatch hneStub] at hmcStub
  simp at hmcStub
  have hmcT := matchCount_injectCrasher cfg.functionTarget f bi ii
    inst.applyId inst.applyResTy RuntimeCrasherFunctionName b inst hb hx
  rw [hmatch] at hmcT
  simp only [hneStub, if_true, ite_true, if_false, ite_false,
    Nat.add_zero] at hmcT
  have hmem := injectCrasher_mem f bi ii inst.applyId inst.applyResTy
    RuntimeCrasherFunctionName b inst hb hx
  have hfname : ¬ f.name = RuntimeCrasherFunctionName :=
    findFunction?_none_mem m RuntimeCrasherFunctionName hfresh f
      (mem_of_getElem2 hf)
  have hfindStub : ((Module.mk (m.functions ++ [trapStub])).setAt fidx
      (injectCrasher f bi ii inst.applyId inst.applyResTy
        RuntimeCrasherFunctionName)).findFunction?
      RuntimeCrasherFunctionName = some trapStub := by
    show ((m.functions ++ [trapStub]).set fidx
        (injectCrasher f bi ii inst.applyId inst.applyResTy
          RuntimeCrasherFunctionName)).find?
        (fun g => g.name = RuntimeCrasherFunctionName) = some trapStub
    rw [List.set_append_left fidx _ hfidx, List.find?_append]
    have hleft : (m.functions.set fidx
        (injectCrasher f bi ii inst.applyId inst.applyResTy
          RuntimeCrasherFunctionName)).find?
        (fun g => g.name = RuntimeCrasherFunctionName) = Option.none := by
      refine List.find?_eq_none.mpr ?_
      intro g hg
      rcases List.mem_or_eq_of_mem_set hg with hmem2 | heq
      · simpa using findFunction?_none_mem m RuntimeCrasherFunctionName
          hfresh g hmem2
      · subst heq
        simp only [decide_eq_true_eq]
        rw [injectCrasher_name]
        exact hfname
    rw [hleft]
    rfl
  refine ⟨_, injectCrasher f bi ii inst.applyId inst.applyResTy
    RuntimeCrasherFunctionName, b, _, hrun, ?_, hb, hb2, hpos1, hpos2,
    hlen, by omega, by omega,
    usesResult_false _ inst.applyId inst.applyResTy hmem,
    ⟨trapStub, hfindStub, rfl⟩⟩
  show ((m.functions ++ [trapStub]).set fidx
      (injectCrasher f bi ii inst.applyId inst.applyResTy
        RuntimeCrasherFunctionName))[fidx]? =
    some (injectCrasher f bi ii inst.applyId inst.applyResTy
      RuntimeCrasherFunctionName)
  exact List.getElem?_set_eq_of_lt _ (by simp; omega)

theorem C4_witness :
    ∃ m2, runPass cfgCrash false exModule 1 = RunResult.ok true m2 := by
  obtain ⟨m2, f2, b, b2, hrun, hrest⟩ :=
    C4_crasher_functional cfgCrash exModule 1 exFunMain 0 0 exTargetApply
      (by decide) rfl (by decide) rfl rfl (by decide)
  exact ⟨m2, hrun⟩

/-- C9: the trap stub is looked up purely by its fixed name
`bug_reducer_runtime_crasher_func`: when the module already contains a
full definition of that name, the runtime-crash injection reuses it as
the stub without touching its body — whatever that body is, with no check
that it is `[Trap, Unreachable]` — and the injected call invokes that
function by name. -/
theorem C9_stub_reused_by_name (cfg : Config) (m : Module) (fidx : Nat)
    (f g : SILFunction) (bi ii : Nat) (inst : Instr)
    (ht : ¬ cfg.functionTarget = "")
    (hk : cfg.targetFailureKind = FailureKind.runtimeCrasher)
    (hf : m.functions[fidx]? = some f)
    (hfind : findTargetApply cfg.functionTarget f.blocks =
      some (bi, ii, inst))
    (hg : m.findFunction? RuntimeCrasherFunctionName = some g)
    (hgdef : g.isDefinition = true)
    (hfname : ¬ f.name = RuntimeCrasherFunctionName) :
    ∃ m2 f2 b b2,
      runPass cfg false m fidx = RunResult.ok true m2 ∧
      m2.findFunction? RuntimeCrasherFunctionName = some g ∧
      m2.functions[fidx]? = some f2 ∧
      f.blocks[bi]? = some b ∧
      f2.blocks[bi]? = some b2 ∧
      b2[ii + 1]? = some (Instr.apply (freshId f.blocks + 1)
        (Callee.functionRef RuntimeCrasherFunctionName) []
        Ty.emptyTuple) := by
  obtain ⟨b, hb, hx, hmatch, hblks, hinstr⟩ := findTargetApply_some hfind
  have hii : ii < b.length := (List.getElem?_eq_some.mp hx).1
  have hbi : bi < f.blocks.length := (List.getElem?_eq_some.mp hb).1
  have hfidx : fidx < m.functions.length := (List.getElem?_eq_some.mp hf).1
  have hgname : g.name = RuntimeCrasherFunctionName :=
    findFunction?_name m _ g hg
  have hrun0 := runPass_crasher cfg m fidx f bi ii inst ht hk hf hfind
  rw [getRuntimeCrasher_defined m g hg hgdef] at hrun0
  have hrun : runPass cfg false m fidx = RunResult.ok true
      (m.setAt fidx (injectCrasher f bi ii inst.applyId inst.applyResTy
        g.name)) := hrun0
  rw [hgname] at hrun
  have hblocks2 := injectCrasher_blocks f bi ii inst.applyId
    inst.applyResTy RuntimeCrasherFunctionName b inst hb hx
  have hb2 : (injectCrasher f bi ii inst.applyId inst.applyResTy
      RuntimeCrasherFunctionName).blocks[bi]? =
      some ((b.take ii).map
          (Instr.rauw inst.applyId (Value.undef inst.applyResTy)) ++
        Instr.functionRef (freshId f.blocks) RuntimeCrasherFunctionName ::
        Instr.apply (freshId f.blocks + 1)
          (Callee.functionRef RuntimeCrasherFunctionName) []
          Ty.emptyTuple ::
        (b.drop (ii + 1)).map
          (Instr.rauw inst.applyId (Value.undef inst.applyResTy))) := by
    rw [hblocks2]
    exact List.getElem?_set_eq_of_lt _ (by rw [rauwBlocks_length]; omega)
  have hPlen : ((b.take ii).map
      (Instr.rauw inst.applyId (Value.undef inst.applyResTy))).length =
      ii := by
    simp only [List.length_map, List.length_take]
    omega
  have hpos2 : ((b.take ii).map
        (Instr.rauw inst.applyId (Value.undef inst.applyResTy)) ++
      Instr.functionRef (freshId f.blocks) RuntimeCrasherFunctionName ::
      Instr.apply (freshId f.blocks + 1)
        (Callee.functionRef RuntimeCrasherFunctionName) []
        Ty.emptyTuple ::
      (b.drop (ii + 1)).map
        (Instr.rauw inst.applyId
          (Value.undef inst.applyResTy)))[ii + 1]? =
      some (Instr.apply (freshId f.blocks + 1)
        (Callee.functionRef RuntimeCrasherFunctionName) []
        Ty.emptyTuple) := by
    rw [List.getElem?_append_right (by omega), hPlen]
    simp
  have hfind2 : (m.setAt fidx (injectCrasher f bi ii inst.applyId
      inst.applyResTy RuntimeCrasherFunctionName)).findFunction?
      RuntimeCrasherFunctionName = some g := by
    show (m.functions.set fidx (injectCrasher f bi ii inst.applyId
        inst.applyResTy RuntimeCrasherFunctionName)).find?
        (fun x => x.name = RuntimeCrasherFunctionName) = some g
    rw [find?_set_preserve _ m.functions fidx _ f hf
      (by simpa using hfname)
      (by rw [decide_eq_false_iff_not, injectCrasher_name]; exact hfname)]
    exact hg
  exact ⟨_, injectCrasher f bi ii inst.applyId inst.applyResTy
    RuntimeCrasherFunctionName, b, _, hrun, hfind2,
    setAt_getElem m fidx _ hfidx, hb, hb2, hpos2⟩

theorem C9_witness :
    ∃ m2, runPass cfgCrash false exModuleStub 1 = RunResult.ok true m2 ∧
      m2.findFunction? RuntimeCrasherFunctionName = some exWeirdStub := by
  obtain ⟨m2, f2, b, b2, hrun, hfind2, hrest⟩ :=
    C9_stub_reused_by_name cfgCrash exModuleStub 1 exFunMain exWeirdStub
      0 0 exTargetApply (by decide) rfl rfl rfl rfl rfl (by decide)
  exact ⟨m2, hrun, hfind2⟩

/-- C10: once the matched call has been erased the invocation returns at
once, so nothing past the injection is visited or mutated in the same
invocation. Observably on the result: all blocks other than the matched
one undergo only the use-substitution (no instruction added or removed),
the instructions after the matched call survive in place modulo that same
substitution, exactly one match is consumed (further matching calls in
the same function survive untouched, so the function is not re-scanned),
and every other function — under the runtime-crash kind, every other
function not carrying the trap stub's name — is exactly as it was. -/
theorem C10_single_site (cfg : Config) (m : Module) (fidx : Nat)
    (f : SILFunction) (bi ii : Nat) (inst : Instr)
    (ht : ¬ cfg.functionTarget = "")
    (hkd : cfg.targetFailureKind = FailureKind.runtimeMiscompile ∨
      cfg.targetFailureKind = FailureKind.runtimeCrasher)
    (hstubne : ¬ cfg.functionTarget = RuntimeCrasherFunctionName)
    (hf : m.functions[fidx]? = some f)
    (hfind : findTargetApply cfg.functionTarget f.blocks =
      some (bi, ii, inst)) :
    ∃ m2 f2 b,
      runPass cfg false m fidx = RunResult.ok true m2 ∧
      m2.functions[fidx]? = some f2 ∧
      f.blocks[bi]? = some b ∧
      f2.blocks.length = f.blocks.length ∧
      (∀ bj, ¬ bj = bi → f2.blocks[bj]? = (f.blocks[bj]?).map
        (fun b3 => b3.map
          (Instr.rauw inst.applyId (Value.undef inst.applyResTy)))) ∧
      (∃ pre2, f2.blocks[bi]? = some (pre2 ++ (b.drop (ii + 1)).map
        (Instr.rauw inst.applyId (Value.undef inst.applyResTy)))) ∧
      matchCount cfg.functionTarget f2.blocks + 1 =
        matchCount cfg.functionTarget f.blocks ∧
      (∀ k g, ¬ k = fidx → m.functions[k]? = some g →
        ¬ g.name = RuntimeCrasherFunctionName →
        m2.functions[k]? = some g) := by
  obtain ⟨b, hb, hx, hmatch, hblks, hinstr⟩ := findTargetApply_some hfind
  have hii : ii < b.length := (List.getElem?_eq_some.mp hx).1
  have hbi : bi < f.blocks.length := (List.getElem?_eq_some.mp hb).1
  have hfidx : fidx < m.functions.length := (List.getElem?_eq_some.mp hf).1
  rcases hkd with hk | hk
  · have hblocks2 := injectMiscompile_blocks f bi ii inst.applyId
      inst.applyResTy b inst hb hx
    have hmc0 := matchCount_injectMiscompile cfg.functionTarget f bi ii
      inst.applyId inst.applyResTy b inst hb hx
    rw [hmatch] at hmc0
    simp only [if_true, ite_true] at hmc0
    refine ⟨m.setAt fidx (injectMiscompile f bi ii inst.applyId
      inst.applyResTy), injectMiscompile f bi ii inst.applyId
      inst.applyResTy, b,
      runPass_miscompile cfg m fidx f bi ii inst ht hk hf hfind,
      setAt_getElem m fidx _ hfidx, hb, ?_, ?_, ?_, hmc0, ?_⟩
    · rw [hblocks2]
      simp [rauwBlocks_length]
    · intro bj hbj
      rw [hblocks2, List.getElem?_set_ne (fun h2 => hbj h2.symm),
        rauwBlocks_getElem?]
    · refine ⟨(b.take ii).map
        (Instr.rauw inst.applyId (Value.undef inst.applyResTy)), ?_⟩
      rw [hblocks2]
      exact List.getElem?_set_eq_of_lt _ (by rw [rauwBlocks_length]; omega)
    · intro k g hk2 hg hname
      rw [setAt_getElem_ne m fidx k _ (fun h2 => hk2 h2.symm)]
      exact hg
  · have hrun0 := runPass_crasher cfg m fidx f bi ii inst ht hk hf hfind
    rw [getRuntimeCrasher_sndName m] at hrun0
    have hblocks2 := injectCrasher_blocks f bi ii inst.applyId
      inst.applyResTy RuntimeCrasherFunctionName b inst hb hx
    have hneStub : ¬ RuntimeCrasherFunctionName = cfg.functionTarget :=
      fun h => hstubne h.symm
    have hmc0 := matchCount_injectCrasher cfg.functionTarget f bi ii
      inst.applyId inst.applyResTy RuntimeCrasherFunctionName b inst hb hx
    rw [hmatch] at hmc0
    simp only [hneStub, if_true, ite_true, if_false, ite_false,
      Nat.add_zero] at hmc0
    refine ⟨(getRuntimeCrasherFunction m).1.setAt fidx
      (injectCrasher f bi ii inst.applyId inst.applyResTy
        RuntimeCrasherFunctionName),
      injectCrasher f bi ii inst.applyId inst.applyResTy
        RuntimeCrasherFunctionName, b, hrun0,
      setAt_getElem _ fidx _
        (lt_of_lt_of_le hfidx (getRuntimeCrasher_len m)), hb,
      ?_, ?_, ?_, hmc0, ?_⟩
    · rw [hblocks2]
      simp [rauwBlocks_length]
    · intro bj hbj
      rw [hblocks2, List.getElem?_set_ne (fun h2 => hbj h2.symm),
        rauwBlocks_getElem?]
    · refine ⟨(b.take ii).map
        (Instr.rauw inst.applyId (Value.undef inst.applyResTy)) ++
        [Instr.functionRef (freshId f.blocks) RuntimeCrasherFunctionName,
         Instr.apply (freshId f.blocks + 1)
           (Callee.functionRef RuntimeCrasherFunctionName) []
           Ty.emptyTuple], ?_⟩
      rw [hblocks2]
      rw [List.getElem?_set_eq_of_lt _ (by rw [rauwBlocks_length]; omega)]
      simp
    · intro k g hk2 hg hname
      rw [setAt_getElem_ne _ fidx k _ (fun h2 => hk2 h2.symm)]
      exact getRuntimeCrasher_preserves m k g hg hname

theorem C10_witness :
    ∃ m2 f2, runPass cfgMis false exModule 1 = RunResult.ok true m2 ∧
      m2.functions[1]? = some f2 ∧
      matchCount "target" f2.blocks + 1 =
        matchCount "target" exFunMain.blocks := by
  obtain ⟨m2, f2, b, hrun, hget, hb, hlen, hother, hsuf, hmc, hfns⟩ :=
    C10_single_site cfgMis exModule 1 exFunMain 0 0 exTargetApply
      (by decide) (Or.inl rfl) (by decide) rfl rfl
  exact ⟨m2, f2, hrun, hget, hmc⟩

end BugReducer
